import Mathlib

/-!
Verification of the diff engine (src/utils/diff.ts) and the review-session
controller (src/gui/card-ui.tsx) of the obsidian-spaced-repetition-typein
repository.

Strings are modelled as `List Char` (one entry per code unit of the
JavaScript string); `String.prototype.toLowerCase` and
`String.prototype.trim` are modelled per character, faithful on the
Basic Latin range exercised here.  Timestamps (`moment.now()`) are
modelled as integers.
-/

namespace SRTypeIn

/-- `DiffType` from src/utils/diff.ts: `Equal`, `Insert` (character in the
correct answer but missing from the user's answer), `Delete` (character in
the user's answer but not in the correct answer). -/
inductive DiffType where
  | Equal
  | Insert
  | Delete
deriving DecidableEq, Repr

/-- `DiffSegment` from src/utils/diff.ts: a diff classification together
with the run of characters it covers. -/
structure DiffSegment where
  type : DiffType
  text : List Char
deriving DecidableEq, Repr

/-- Per-character model of JavaScript `toLowerCase` (ASCII range). -/
def toLowerChar (c : Char) : Char :=
  if 'A' ≤ c ∧ c ≤ 'Z' then Char.ofNat (c.toNat + 32) else c

/-- The case fold applied by `computeDiff` before comparing:
identity when `caseSensitive`, otherwise `toLowerCase`. -/
def foldCase (caseSensitive : Bool) (s : List Char) : List Char :=
  if caseSensitive then s else s.map toLowerChar

/-- Inner loop of `computeLCS` (src/utils/diff.ts lines 27-35): the row
entries `dp[i][1..n]`, walking along `str2`.  `prevSuffix` is the previous
row from index `j - 1` on (so its head is `dp[i-1][j-1]`, the next entry
`dp[i-1][j]`), and `left` is the entry `dp[i][j-1]` just computed.  The
fill rule is the source's
`dp[i][j] = str1[i-1] === str2[j-1] ? dp[i-1][j-1] + 1
          : max(dp[i-1][j], dp[i][j-1])`. -/
def lcsRowAux (c1 : Char) : List Char → List Nat → Nat → List Nat
  | [], _, _ => []
  | b :: bs, prevSuffix, left =>
    let entry :=
      if c1 = b then prevSuffix.headD 0 + 1
      else max (prevSuffix.tail.headD 0) left
    entry :: lcsRowAux c1 bs prevSuffix.tail entry

/-- Row `i` of the LCS table: a leading `0` (the `dp[i][0]` border left at
its initial fill) followed by the computed entries. -/
def lcsRow (c1 : Char) (str2 : List Char) (prev : List Nat) : List Nat :=
  0 :: lcsRowAux c1 str2 prev 0

/-- Rows `1..m` of the LCS table, each computed from the previous row. -/
def lcsRows (str2 : List Char) : List Nat → List Char → List (List Nat)
  | _, [] => []
  | prev, c1 :: rest =>
    let row := lcsRow c1 str2 prev
    row :: lcsRows str2 row rest

/-- `computeLCS` from src/utils/diff.ts: the `(m+1) × (n+1)`
dynamic-programming table of LCS lengths, row `0` all zeros. -/
def computeLCS (str1 str2 : List Char) : List (List Nat) :=
  let firstRow := List.replicate (str2.length + 1) 0
  firstRow :: lcsRows str2 firstRow str1

/-- Table lookup `dp[i][j]`. -/
def dpGet (dp : List (List Nat)) (i j : Nat) : Nat :=
  (dp.getD i []).getD j 0

/-- The backtracking loop of `computeDiff` (src/utils/diff.ts lines
73-86), from indices `(i, j)` down to `(0, 0)`: emit `Equal` on a match of
the case-folded characters (taking the displayed character from
`correctAnswer`), otherwise `Insert` when `j > 0` and (`i === 0` or
`dp[i][j-1] >= dp[i-1][j]`), otherwise `Delete`.  The list is produced in
the same end-of-string-first order in which the source pushes onto
`segments`.  The loop is driven by a `fuel` argument so that the
definition is structurally recursive; `backtrack` below supplies
`fuel = i + j`, which is exactly the bound on the number of iterations
(each iteration decrements `i + j` by one or two). -/
def backtrackAux (dp : List (List Nat))
    (compareUser compareCorrect userAnswer correctAnswer : List Char) :
    Nat → Nat → Nat → List (DiffType × Char)
  | 0, _, _ => []
  | fuel + 1, i, j =>
    if i = 0 ∧ j = 0 then []
    else if 0 < i ∧ 0 < j ∧
        compareUser.getD (i - 1) ' ' = compareCorrect.getD (j - 1) ' ' then
      (DiffType.Equal, correctAnswer.getD (j - 1) ' ') ::
        backtrackAux dp compareUser compareCorrect userAnswer correctAnswer fuel (i - 1) (j - 1)
    else if 0 < j ∧ (i = 0 ∨ dpGet dp i (j - 1) ≥ dpGet dp (i - 1) j) then
      (DiffType.Insert, correctAnswer.getD (j - 1) ' ') ::
        backtrackAux dp compareUser compareCorrect userAnswer correctAnswer fuel i (j - 1)
    else
      (DiffType.Delete, userAnswer.getD (i - 1) ' ') ::
        backtrackAux dp compareUser compareCorrect userAnswer correctAnswer fuel (i - 1) j

/-- The backtracking loop started at `(i, j)` with sufficient fuel. -/
def backtrack (dp : List (List Nat))
    (compareUser compareCorrect userAnswer correctAnswer : List Char)
    (i j : Nat) : List (DiffType × Char) :=
  backtrackAux dp compareUser compareCorrect userAnswer correctAnswer (i + j) i j

/-- The run-merging loop of `computeDiff` (src/utils/diff.ts lines 90-96):
append the character to the last segment when it has the same type,
otherwise start a new segment.  The accumulator is kept in reverse order
(head = the source's `result[result.length - 1]`); `computeDiff` reverses
it at the end. -/
def mergeStep (result : List DiffSegment) (seg : DiffType × Char) : List DiffSegment :=
  match result with
  | last :: rest =>
    if last.type = seg.1 then ⟨last.type, last.text ++ [seg.2]⟩ :: rest
    else ⟨seg.1, [seg.2]⟩ :: last :: rest
  | [] => [⟨seg.1, [seg.2]⟩]

/-- `computeDiff` from src/utils/diff.ts: case-fold both strings when not
`caseSensitive`; if the folded strings are equal, return a single `Equal`
segment holding the (original-casing) correct answer; otherwise build the
LCS table of the folded strings, backtrack from
`(userAnswer.length, correctAnswer.length)`, reverse the emitted
per-character segments into front-to-back order, and run-length-merge
adjacent same-type entries. -/
def computeDiff (userAnswer correctAnswer : List Char)
    (caseSensitive : Bool) : List DiffSegment :=
  let compareUser := foldCase caseSensitive userAnswer
  let compareCorrect := foldCase caseSensitive correctAnswer
  if compareUser = compareCorrect then [⟨DiffType.Equal, correctAnswer⟩]
  else
    let dp := computeLCS compareUser compareCorrect
    let segments := (backtrack dp compareUser compareCorrect userAnswer correctAnswer
        userAnswer.length correctAnswer.length).reverse
    (segments.foldl mergeStep []).reverse

/-- Per-character model of the whitespace class removed by JavaScript
`String.prototype.trim`. -/
def isWhitespaceJS (c : Char) : Bool :=
  c == ' ' || c == '\t' || c == '\n' || c == '\r' ||
  c == '\x0b' || c == '\x0c' || c == ' ' || c == '﻿'

/-- Model of JavaScript `String.prototype.trim`: drop leading and trailing
whitespace. -/
def trimJS (s : List Char) : List Char :=
  ((s.dropWhile isWhitespaceJS).reverse.dropWhile isWhitespaceJS).reverse

/-- `isAnswerCorrect` from src/utils/diff.ts: trim both strings; compare
them directly when `caseSensitive`, otherwise compare their lower-casings. -/
def isAnswerCorrect (userAnswer correctAnswer : List Char)
    (caseSensitive : Bool) : Bool :=
  if caseSensitive then decide (trimJS userAnswer = trimJS correctAnswer)
  else decide ((trimJS userAnswer).map toLowerChar = (trimJS correctAnswer).map toLowerChar)

/-- Concatenated text of the segments whose type satisfies `p`, in order. -/
def segmentsText (p : DiffType → Bool) (segs : List DiffSegment) : List Char :=
  ((segs.filter fun s => p s.type).map DiffSegment.text).flatten

/-! ## Review-session controller (src/gui/card-ui.tsx) -/

/-- `FlashcardMode` (src/gui/sr-modal.ts): the visible face of the card. -/
inductive FlashcardMode where
  | Front
  | Back
  | Closed
deriving DecidableEq, Repr

/-- `ReviewResponse` (src/algorithms/base/repetition-item.ts): the graded
responses the controller can submit to the sequencer. -/
inductive ReviewResponse where
  | Reset
  | Hard
  | Good
  | Easy
deriving DecidableEq, Repr

/-- Observable calls the controller makes to its collaborators: the review
sequencer's `processReview` and `skipCurrentCard`, and the `backToDeck`
session-end callback. -/
inductive SeqCall where
  | processReview (response : ReviewResponse)
  | skipCurrentCard
  | backToDeck
deriving DecidableEq, Repr

/-- The state of `CardUI` relevant to the review state machine: the mode,
the debounce timestamp `lastPressed` (`0` models the JavaScript falsy
initial `undefined`), the stored typed answer, and the widget
visibility/enabled flags the transitions touch.  `indicatorCorrect` models
the correct/incorrect indicator shown in `typeInResult` (`none` = hidden),
and `displayedDiff` the rendered diff. -/
structure CardState where
  mode : FlashcardMode
  lastPressed : Int
  userTypedAnswer : List Char
  resetDisabled : Bool
  typeInDisabled : Bool
  checkButtonHidden : Bool
  answerButtonHidden : Bool
  hardHidden : Bool
  goodHidden : Bool
  easyHidden : Bool
  indicatorCorrect : Option Bool
  displayedDiff : List DiffSegment
deriving DecidableEq, Repr

/-- The debounce guard shared by `_processReview`, `_checkTypeInAnswer` and
`_showAnswer`: `this.lastPressed && timeNow - this.lastPressed <
reviewButtonDelay`.  A `lastPressed` of `0` (or the initial `undefined`)
is falsy, so the guard then rejects nothing. -/
def debounceRejected (delay lastPressed timeNow : Int) : Bool :=
  lastPressed != 0 && decide (timeNow - lastPressed < delay)

/-- `_resetResponseButtons` (src/gui/card-ui.tsx lines 525-547): hide the
grading buttons; on a type-in card show and clear the input, clear the
stored typed answer, show the check button and hide/empty the result area;
otherwise show the reveal-answer button. -/
def resetResponseButtons (isTypeIn : Bool) (s : CardState) : CardState :=
  let s := { s with hardHidden := true, goodHidden := true, easyHidden := true }
  if isTypeIn then
    { s with answerButtonHidden := true, typeInDisabled := false,
             userTypedAnswer := [], checkButtonHidden := false,
             indicatorCorrect := none, displayedDiff := [] }
  else
    { s with answerButtonHidden := false }

/-- `_drawContent` (src/gui/card-ui.tsx lines 227-261): disable the reset
button, enter `Front` mode for the (new) current card, and reset the
response buttons.  `isTypeIn` says whether the sequencer's current
question is a type-in variant. -/
def drawContent (isTypeIn : Bool) (s : CardState) : CardState :=
  resetResponseButtons isTypeIn
    { s with resetDisabled := true, mode := FlashcardMode.Front }

/-- `_showNextCard` (src/gui/card-ui.tsx lines 294-297): redraw for the
sequencer's current card, or call `backToDeck` when the sequencer has no
current card (`hasNext = false`). -/
def showNextCard (isTypeIn hasNext : Bool) (s : CardState) : CardState × List SeqCall :=
  if hasNext then (drawContent isTypeIn s, []) else (s, [SeqCall.backToDeck])

/-- `_processReview` (src/gui/card-ui.tsx lines 280-292): if the debounce
guard fires, return without any change; otherwise record the press time,
hand the response to the sequencer and show the next card. -/
def processReview (delay : Int) (isTypeIn hasNext : Bool) (response : ReviewResponse)
    (timeNow : Int) (s : CardState) : CardState × List SeqCall :=
  if debounceRejected delay s.lastPressed timeNow then (s, [])
  else
    let next := showNextCard isTypeIn hasNext { s with lastPressed := timeNow }
    (next.1, SeqCall.processReview response :: next.2)

/-- `_skipCurrentCard` (src/gui/card-ui.tsx lines 348-351): tell the
sequencer to skip the current card (no debounce, no mode guard), then show
the next card. -/
def skipCurrentCard (isTypeIn hasNext : Bool) (s : CardState) : CardState × List SeqCall :=
  let next := showNextCard isTypeIn hasNext s
  (next.1, SeqCall.skipCurrentCard :: next.2)

/-- `_showAnswer` (src/gui/card-ui.tsx lines 720-780): debounce; then enter
`Back` mode, enable the reset button, hide the reveal button and show the
grading buttons (the Good button stays as it was in Cram mode). -/
def showAnswer (delay : Int) (isCram : Bool) (timeNow : Int) (s : CardState) : CardState :=
  if debounceRejected delay s.lastPressed timeNow then s
  else
    { s with lastPressed := timeNow, mode := FlashcardMode.Back,
             resetDisabled := false, answerButtonHidden := true,
             hardHidden := false, easyHidden := false,
             goodHidden := if isCram then s.goodHidden else false }

/-- `_checkTypeInAnswer` (src/gui/card-ui.tsx lines 625-718): debounce;
then read the typed input, trim the card's back to get the correct answer,
compute the diff and the correctness verdict for display, freeze the input,
hide the check button, enter `Back` mode, enable the reset button and show
the grading buttons (the Good button stays as it was in Cram mode). -/
def checkTypeInAnswer (delay : Int) (caseSensitive isCram : Bool)
    (inputValue cardBack : List Char) (timeNow : Int) (s : CardState) : CardState :=
  if debounceRejected delay s.lastPressed timeNow then s
  else
    let correctAnswer := trimJS cardBack
    { s with lastPressed := timeNow,
             userTypedAnswer := inputValue,
             displayedDiff := computeDiff inputValue correctAnswer caseSensitive,
             indicatorCorrect := some (isAnswerCorrect inputValue correctAnswer caseSensitive),
             typeInDisabled := true,
             checkButtonHidden := true,
             mode := FlashcardMode.Back,
             resetDisabled := false,
             hardHidden := false, easyHidden := false,
             goodHidden := if isCram then s.goodHidden else false }

/-- The key codes the `_keydownHandler` dispatches on. -/
inductive KeyCode where
  | KeyS
  | Space
  | Enter
  | NumpadEnter
  | Digit1
  | Digit2
  | Digit3
  | Digit0
  | Other
deriving DecidableEq, Repr

/-- The ambient facts `_keydownHandler` reads besides the controller state:
whether a textarea has focus, whether the plugin view has focus, whether
the type-in input has focus, whether the current question is a type-in
variant, the review mode, and whether the sequencer will have a current
card after an advance. -/
structure KeyContext where
  textareaActive : Bool
  srInFocus : Bool
  isTypingInInput : Bool
  isTypeIn : Bool
  isCram : Bool
  hasNext : Bool
deriving DecidableEq, Repr

/-- `_keydownHandler` (src/gui/card-ui.tsx lines 782-870).  Returns the new
state, the collaborator calls made, and whether the key event was consumed
(`preventDefault`/`stopPropagation`). -/
def keydownHandler (delay : Int) (ctx : KeyContext) (key : KeyCode) (timeNow : Int)
    (s : CardState) : CardState × List SeqCall × Bool :=
  if ctx.textareaActive || s.mode == FlashcardMode.Closed || !ctx.srInFocus then
    (s, [], false)
  else
    match key with
    | KeyCode.KeyS =>
      if !ctx.isTypingInInput then
        let r := skipCurrentCard ctx.isTypeIn ctx.hasNext s
        (r.1, r.2, true)
      else (s, [], false)
    | KeyCode.Space =>
      if ctx.isTypingInInput then (s, [], false)
      else if s.mode == FlashcardMode.Front then
        if !ctx.isTypeIn then (showAnswer delay ctx.isCram timeNow s, [], true)
        else (s, [], false)
      else if s.mode == FlashcardMode.Back then
        let r := processReview delay ctx.isTypeIn ctx.hasNext ReviewResponse.Good timeNow s
        (r.1, r.2, true)
      else (s, [], false)
    | KeyCode.Enter | KeyCode.NumpadEnter =>
      if s.mode != FlashcardMode.Front then (s, [], false)
      else if !ctx.isTypeIn then (showAnswer delay ctx.isCram timeNow s, [], true)
      else (s, [], false)
    | KeyCode.Digit1 =>
      if s.mode != FlashcardMode.Back then (s, [], false)
      else
        let r := processReview delay ctx.isTypeIn ctx.hasNext ReviewResponse.Hard timeNow s
        (r.1, r.2, true)
    | KeyCode.Digit2 =>
      if s.mode != FlashcardMode.Back then (s, [], false)
      else
        let r := processReview delay ctx.isTypeIn ctx.hasNext ReviewResponse.Good timeNow s
        (r.1, r.2, true)
    | KeyCode.Digit3 =>
      if s.mode != FlashcardMode.Back then (s, [], false)
      else
        let r := processReview delay ctx.isTypeIn ctx.hasNext ReviewResponse.Easy timeNow s
        (r.1, r.2, true)
    | KeyCode.Digit0 =>
      if s.mode != FlashcardMode.Back then (s, [], false)
      else
        let r := processReview delay ctx.isTypeIn ctx.hasNext ReviewResponse.Reset timeNow s
        (r.1, r.2, true)
    | KeyCode.Other => (s, [], false)

/-- The per-character case fold underlying `foldCase`. -/
def charFold (caseSensitive : Bool) (ch : Char) : Char :=
  if caseSensitive then ch else toLowerChar ch

/-! ## Helper lemmas -/

theorem charFold_true : charFold true = id := by
  funext ch; simp [charFold]

theorem charFold_false : charFold false = toLowerChar := by
  funext ch; simp [charFold]

theorem foldCase_eq_map (cs : Bool) (s : List Char) :
    foldCase cs s = s.map (charFold cs) := by
  cases cs <;> simp [foldCase, charFold_true, charFold_false]

theorem segmentsText_append (p : DiffType → Bool) (l₁ l₂ : List DiffSegment) :
    segmentsText p (l₁ ++ l₂) = segmentsText p l₁ ++ segmentsText p l₂ := by
  simp [segmentsText, List.filter_append]

theorem take_reverse_getD_cons {c : List Char} {j : Nat} (d : Char)
    (h1 : 0 < j) (h2 : j ≤ c.length) :
    (c.take j).reverse = c.getD (j - 1) d :: (c.take (j - 1)).reverse := by
  obtain ⟨k, rfl⟩ : ∃ k, j = k + 1 := ⟨j - 1, by omega⟩
  have hk : k < c.length := by omega
  rw [List.take_succ]
  simp [List.getElem?_eq_getElem hk, List.getD_eq_getElem, hk]

theorem segmentsText_mergeStep (p : DiffType → Bool) (acc : List DiffSegment)
    (s : DiffType × Char) :
    segmentsText p ((mergeStep acc s).reverse) =
      segmentsText p acc.reverse ++ (if p s.1 then [s.2] else []) := by
  cases acc with
  | nil => by_cases hp : p s.1 <;> simp [mergeStep, segmentsText, hp]
  | cons last rest =>
    by_cases h : last.type = s.1
    · by_cases hp : p s.1 <;>
        simp [mergeStep, h, segmentsText_append, segmentsText, hp]
    · by_cases hp : p s.1 <;> by_cases hq : p last.type <;>
        simp [mergeStep, h, segmentsText_append, segmentsText, hp, hq]

theorem segmentsText_foldl_mergeStep (p : DiffType → Bool) (l : List (DiffType × Char)) :
    ∀ acc : List DiffSegment,
      segmentsText p ((l.foldl mergeStep acc).reverse) =
        segmentsText p acc.reverse ++ ((l.filter fun s => p s.1).map Prod.snd) := by
  induction l with
  | nil => intro acc; simp
  | cons s l ih =>
    intro acc
    rw [List.foldl_cons, ih, segmentsText_mergeStep]
    by_cases hp : p s.1 <;> simp [hp, List.filter_cons]

theorem backtrackAux_nonDelete (dp : List (List Nat)) (cu cc u c : List Char) :
    ∀ fuel i j : Nat, i + j ≤ fuel → j ≤ c.length →
      ((backtrackAux dp cu cc u c fuel i j).filter fun s =>
          decide (s.1 ≠ DiffType.Delete)).map Prod.snd = (c.take j).reverse := by
  intro fuel
  induction fuel with
  | zero =>
    intro i j h1 h2
    have hj : j = 0 := by omega
    simp [backtrackAux, hj]
  | succ fuel ih =>
    intro i j h1 h2
    rw [backtrackAux]
    split_ifs with h0 hEq hIns
    · simp [h0.2]
    · rw [List.filter_cons_of_pos (by simp), List.map_cons,
        ih (i - 1) (j - 1) (by omega) (by omega),
        take_reverse_getD_cons ' ' hEq.2.1 h2]
    · rw [List.filter_cons_of_pos (by simp), List.map_cons,
        ih i (j - 1) (by omega) (by omega),
        take_reverse_getD_cons ' ' hIns.1 h2]
    · have hi : 0 < i := by
        rcases Nat.eq_zero_or_pos i with hz | hp
        · exact absurd ⟨by omega, Or.inl hz⟩ hIns
        · exact hp
      rw [List.filter_cons_of_neg (by simp), ih (i - 1) j (by omega) h2]

theorem backtrackAux_nonInsert (dp : List (List Nat)) (g : Char → Char) (u c : List Char) :
    ∀ fuel i j : Nat, i + j ≤ fuel → i ≤ u.length → j ≤ c.length →
      (((backtrackAux dp (u.map g) (c.map g) u c fuel i j).filter fun s =>
          decide (s.1 ≠ DiffType.Insert)).map Prod.snd).map g =
        ((u.take i).reverse).map g := by
  intro fuel
  induction fuel with
  | zero =>
    intro i j h1 h2 h3
    have hi : i = 0 := by omega
    simp [backtrackAux, hi]
  | succ fuel ih =>
    intro i j h1 h2 h3
    rw [backtrackAux]
    split_ifs with h0 hEq hIns
    · simp [h0.1]
    · obtain ⟨hi, hj, hmatch⟩ := hEq
      rw [List.filter_cons_of_pos (by simp), List.map_cons, List.map_cons,
        ih (i - 1) (j - 1) (by omega) (by omega) (by omega),
        take_reverse_getD_cons (c := u) ' ' hi h2, List.map_cons]
      have hu : i - 1 < u.length := by omega
      have hc : j - 1 < c.length := by omega
      rw [List.getD_eq_getElem _ _ (by simpa using hu),
        List.getD_eq_getElem _ _ (by simpa using hc)] at hmatch
      simp only [List.getElem_map] at hmatch
      rw [List.getD_eq_getElem _ _ hc, List.getD_eq_getElem _ _ hu, hmatch]
    · rw [List.filter_cons_of_neg (by simp),
        ih i (j - 1) (by omega) h2 (by omega)]
    · have hi : 0 < i := by
        rcases Nat.eq_zero_or_pos i with hz | hp
        · exact absurd ⟨by omega, Or.inl hz⟩ hIns
        · exact hp
      rw [List.filter_cons_of_pos (by simp), List.map_cons, List.map_cons,
        ih (i - 1) j (by omega) (by omega) h3,
        take_reverse_getD_cons (c := u) ' ' hi h2, List.map_cons]

theorem backtrackAux_equal_sublist (dp : List (List Nat)) (cu cc u c : List Char) :
    ∀ fuel i j : Nat, i + j ≤ fuel → j ≤ c.length →
      List.Sublist
        (((backtrackAux dp cu cc u c fuel i j).filter fun s =>
            decide (s.1 = DiffType.Equal)).map Prod.snd)
        ((c.take j).reverse) := by
  intro fuel
  induction fuel with
  | zero =>
    intro i j h1 h2
    simp [backtrackAux]
  | succ fuel ih =>
    intro i j h1 h2
    rw [backtrackAux]
    split_ifs with h0 hEq hIns
    · simp
    · rw [List.filter_cons_of_pos (by simp), List.map_cons,
        take_reverse_getD_cons ' ' hEq.2.1 h2]
      exact (ih (i - 1) (j - 1) (by omega) (by omega)).cons₂ _
    · rw [List.filter_cons_of_neg (by simp),
        take_reverse_getD_cons ' ' hIns.1 h2]
      exact (ih i (j - 1) (by omega) (by omega)).cons _
    · rw [List.filter_cons_of_neg (by simp)]
      have hi : 0 < i := by
        rcases Nat.eq_zero_or_pos i with hz | hp
        · exact absurd ⟨by omega, Or.inl hz⟩ hIns
        · exact hp
      exact ih (i - 1) j (by omega) h2

theorem filter_reverse_eq (p : (DiffType × Char) → Bool) (l : List (DiffType × Char)) :
    l.reverse.filter p = (l.filter p).reverse := by
  induction l with
  | nil => simp
  | cons s l ih =>
    by_cases hp : p s <;>
      simp [List.filter_append, List.filter_cons, hp, ih]

theorem segmentsText_computeDiff (p : DiffType → Bool) (u c : List Char) (cs : Bool)
    (h : ¬ foldCase cs u = foldCase cs c) :
    segmentsText p (computeDiff u c cs) =
      (((backtrack (computeLCS (foldCase cs u) (foldCase cs c))
          (foldCase cs u) (foldCase cs c) u c u.length c.length).filter
            fun s => p s.1).map Prod.snd).reverse := by
  simp only [computeDiff, if_neg h]
  rw [segmentsText_foldl_mergeStep, filter_reverse_eq, List.map_reverse]
  simp [segmentsText]

theorem computeDiff_nonDelete (u c : List Char) (cs : Bool) :
    segmentsText (fun t => decide (t ≠ DiffType.Delete)) (computeDiff u c cs) = c := by
  by_cases h : foldCase cs u = foldCase cs c
  · simp [computeDiff, h, segmentsText]
  · rw [segmentsText_computeDiff _ _ _ _ h, backtrack,
      backtrackAux_nonDelete _ _ _ _ c _ u.length c.length le_rfl le_rfl]
    simp

theorem computeDiff_nonInsert (u c : List Char) (cs : Bool) :
    foldCase cs (segmentsText (fun t => decide (t ≠ DiffType.Insert)) (computeDiff u c cs)) =
      foldCase cs u := by
  by_cases h : foldCase cs u = foldCase cs c
  · simp [computeDiff, h, segmentsText]
  · rw [segmentsText_computeDiff _ _ _ _ h]
    simp only [foldCase_eq_map] at h ⊢
    rw [List.map_reverse, backtrack,
      backtrackAux_nonInsert _ (charFold cs) u c _ u.length c.length le_rfl le_rfl le_rfl]
    simp

theorem computeDiff_equal_sublist (u c : List Char) (cs : Bool) :
    List.Sublist
      (segmentsText (fun t => decide (t = DiffType.Equal)) (computeDiff u c cs)) c := by
  by_cases h : foldCase cs u = foldCase cs c
  · simp [computeDiff, h, segmentsText]
  · rw [segmentsText_computeDiff _ _ _ _ h, backtrack]
    have := backtrackAux_equal_sublist (computeLCS (foldCase cs u) (foldCase cs c))
      (foldCase cs u) (foldCase cs c) u c (u.length + c.length) u.length c.length le_rfl le_rfl
    have h2 := this.reverse
    simpa using h2

theorem chain'_mergeStep (acc : List DiffSegment) (s : DiffType × Char)
    (h : List.Chain' (fun a b : DiffSegment => a.type ≠ b.type) acc) :
    List.Chain' (fun a b : DiffSegment => a.type ≠ b.type) (mergeStep acc s) := by
  cases acc with
  | nil => simp [mergeStep]
  | cons last rest =>
    by_cases hq : last.type = s.1
    · simp only [mergeStep, if_pos hq]
      cases rest with
      | nil => simp
      | cons b l =>
        rw [List.chain'_cons] at h ⊢
        exact ⟨h.1, h.2⟩
    · simp only [mergeStep, if_neg hq]
      exact List.Chain'.cons (fun hh => hq hh.symm) h

theorem chain'_foldl_mergeStep (l : List (DiffType × Char)) :
    ∀ acc : List DiffSegment,
      List.Chain' (fun a b : DiffSegment => a.type ≠ b.type) acc →
      List.Chain' (fun a b : DiffSegment => a.type ≠ b.type) (l.foldl mergeStep acc) := by
  induction l with
  | nil => intro acc h; simpa using h
  | cons s l ih =>
    intro acc h
    rw [List.foldl_cons]
    exact ih _ (chain'_mergeStep acc s h)

/-! ## Claims about the diff engine -/

/-- C1, counterexample: `computeDiff("Cat", "cat", false)` takes the fast path
and returns the single segment `Equal "cat"`, so the concatenation of the
non-Insert segments is `"cat"`, not the user answer `"Cat"` in its original
casing. -/
theorem computeDiff_nonInsert_casing_counterexample :
    ¬ segmentsText (fun t => decide (t ≠ DiffType.Insert))
        (computeDiff "Cat".toList "cat".toList false) = "Cat".toList := by
  decide

/-- C1 (amended): the concatenation of the non-Delete segments of
`computeDiff(userAnswer, correctAnswer, caseSensitive)` equals
`correctAnswer` exactly (original casing); the concatenation of the
non-Insert segments equals `userAnswer` after applying the comparison case
fold to both, and equals `userAnswer` exactly when `caseSensitive` is
true.  (The displayed characters of matched positions are taken from
`correctAnswer`, so the user's casing is not recoverable from the
segments when the fold is active.) -/
theorem computeDiff_reconstruction (u c : List Char) (cs : Bool) :
    segmentsText (fun t => decide (t ≠ DiffType.Delete)) (computeDiff u c cs) = c ∧
    foldCase cs (segmentsText (fun t => decide (t ≠ DiffType.Insert)) (computeDiff u c cs)) =
      foldCase cs u ∧
    segmentsText (fun t => decide (t ≠ DiffType.Insert)) (computeDiff u c true) = u := by
  refine ⟨computeDiff_nonDelete u c cs, computeDiff_nonInsert u c cs, ?_⟩
  have h := computeDiff_nonInsert u c true
  simpa [foldCase] using h

/-- C2, counterexample: in `computeDiff("kitten", "sitting", false)` the
Insert and Delete segments together contain 5 characters, not 3. -/
theorem computeDiff_kitten_sitting_not_three :
    ¬ ((segmentsText (fun t => decide (t = DiffType.Insert))
          (computeDiff "kitten".toList "sitting".toList false)).length +
        (segmentsText (fun t => decide (t = DiffType.Delete))
          (computeDiff "kitten".toList "sitting".toList false)).length = 3) := by
  decide

/-- C2 (amended): `computeDiff("kitten", "sitting", false)` yields the
alignment `Delete "k", Insert "s", Equal "itt", Delete "e", Insert "i",
Equal "n", Insert "g"` under the prefer-Insert tie-break: its Insert and
Delete segments together contain exactly 5 characters (3 inserted, 2
deleted; the Equal segments carry 4 characters, the LCS length).  The
Levenshtein distance 3 counts each substitution once, while this
insert/delete alignment represents a substitution as an Insert plus a
Delete. -/
theorem computeDiff_kitten_sitting_alignment :
    computeDiff "kitten".toList "sitting".toList false =
      [⟨DiffType.Delete, "k".toList⟩, ⟨DiffType.Insert, "s".toList⟩,
       ⟨DiffType.Equal, "itt".toList⟩, ⟨DiffType.Delete, "e".toList⟩,
       ⟨DiffType.Insert, "i".toList⟩, ⟨DiffType.Equal, "n".toList⟩,
       ⟨DiffType.Insert, "g".toList⟩] ∧
    (segmentsText (fun t => decide (t = DiffType.Insert))
        (computeDiff "kitten".toList "sitting".toList false)).length +
      (segmentsText (fun t => decide (t = DiffType.Delete))
        (computeDiff "kitten".toList "sitting".toList false)).length = 5 ∧
    (segmentsText (fun t => decide (t = DiffType.Equal))
        (computeDiff "kitten".toList "sitting".toList false)).length = 4 := by
  refine ⟨by decide, by decide, by decide⟩

/-- C3: no two adjacent segments returned by `computeDiff` share the same
kind, for any input strings and case flag. -/
theorem computeDiff_no_adjacent_same_kind (u c : List Char) (cs : Bool) :
    List.Chain' (fun a b : DiffSegment => a.type ≠ b.type) (computeDiff u c cs) := by
  by_cases h : foldCase cs u = foldCase cs c
  · simp [computeDiff, h]
  · simp only [computeDiff, if_neg h]
    rw [List.chain'_reverse]
    exact (chain'_foldl_mergeStep _ _ (by simp)).imp fun a b hab => hab.symm

/-- C4: at every backtracking step where both indices are positive and the
case-folded characters do not match, `computeDiff`'s backtracking emits an
Insert (consuming a correct-answer character) exactly when the table value
to the left, `dp[i][j-1]`, is not smaller than the value above,
`dp[i-1][j]`, and otherwise emits a Delete. -/
theorem backtrack_prefers_insert_on_ties (dp : List (List Nat))
    (cu cc u c : List Char) (i j : Nat) (hi : 0 < i) (hj : 0 < j)
    (hne : ¬ cu.getD (i - 1) ' ' = cc.getD (j - 1) ' ') :
    backtrack dp cu cc u c i j =
      if dpGet dp i (j - 1) ≥ dpGet dp (i - 1) j then
        (DiffType.Insert, c.getD (j - 1) ' ') :: backtrack dp cu cc u c i (j - 1)
      else
        (DiffType.Delete, u.getD (i - 1) ' ') :: backtrack dp cu cc u c (i - 1) j := by
  obtain ⟨f, hf⟩ : ∃ f, i + j = f + 1 := ⟨i + j - 1, by omega⟩
  rw [backtrack, hf, backtrackAux]
  by_cases hc : dpGet dp i (j - 1) ≥ dpGet dp (i - 1) j
  · rw [if_neg (by omega), if_neg (fun hcon => hne hcon.2.2),
      if_pos ⟨hj, Or.inr hc⟩, if_pos hc]
    have hfi : f = i + (j - 1) := by omega
    rw [hfi, backtrack]
  · have hcond : ¬ (0 < j ∧ (i = 0 ∨ dpGet dp i (j - 1) ≥ dpGet dp (i - 1) j)) := by
      rintro ⟨-, h0 | hdp⟩
      · omega
      · exact hc hdp
    rw [if_neg (by omega), if_neg (fun hcon => hne hcon.2.2), if_neg hcond, if_neg hc]
    have hfi : f = (i - 1) + j := by omega
    rw [hfi, backtrack]

/-- Witness for C4 at a concrete non-matching step. -/
theorem backtrack_prefers_insert_on_ties_witness :
    0 < 1 ∧ ¬ (['a'] : List Char).getD 0 ' ' = (['b'] : List Char).getD 0 ' ' ∧
    backtrack (computeLCS ['a'] ['b']) ['a'] ['b'] ['a'] ['b'] 1 1 =
      (if dpGet (computeLCS ['a'] ['b']) 1 0 ≥ dpGet (computeLCS ['a'] ['b']) 0 1 then
        (DiffType.Insert, (['b'] : List Char).getD 0 ' ') ::
          backtrack (computeLCS ['a'] ['b']) ['a'] ['b'] ['a'] ['b'] 1 0
      else
        (DiffType.Delete, (['a'] : List Char).getD 0 ' ') ::
          backtrack (computeLCS ['a'] ['b']) ['a'] ['b'] ['a'] ['b'] 0 1) :=
  ⟨by decide, by decide,
    backtrack_prefers_insert_on_ties _ _ _ _ _ 1 1 (by decide) (by decide) (by decide)⟩

/-- C5: `isAnswerCorrect` trims leading and trailing whitespace from both
arguments and compares, directly when case-sensitive and after
lower-casing both otherwise; in particular
`isAnswerCorrect(" cat ", "cat", false) = true`,
`isAnswerCorrect("Cat", "cat", true) = false`, and
`isAnswerCorrect("Cat", "cat", false) = true`. -/
theorem isAnswerCorrect_trim_casefold :
    (∀ (u c : List Char) (cs : Bool),
        isAnswerCorrect u c cs = true ↔
          foldCase cs (trimJS u) = foldCase cs (trimJS c)) ∧
    isAnswerCorrect " cat ".toList "cat".toList false = true ∧
    isAnswerCorrect "Cat".toList "cat".toList true = false ∧
    isAnswerCorrect "Cat".toList "cat".toList false = true := by
  refine ⟨fun u c cs => ?_, by decide, by decide, by decide⟩
  cases cs <;> simp [isAnswerCorrect, foldCase]

/-- C10: the text of the Equal segments of `computeDiff` is, in order, a
subsequence of `correctAnswer` (in its original casing); in particular a
case-insensitively matched character is displayed with the correct
answer's casing, never the user's, as `computeDiff("Cat", "cat", false)
= [Equal "cat"]` shows. -/
theorem computeDiff_equal_text_from_correct (u c : List Char) (cs : Bool) :
    List.Sublist
      (segmentsText (fun t => decide (t = DiffType.Equal)) (computeDiff u c cs)) c ∧
    computeDiff "Cat".toList "cat".toList false = [⟨DiffType.Equal, "cat".toList⟩] :=
  ⟨computeDiff_equal_sublist u c cs, by decide⟩

/-! ## Claims about the review-session controller -/

theorem drawContent_lastPressed (b : Bool) (s : CardState) :
    (drawContent b s).lastPressed = s.lastPressed := by
  cases b <;> simp [drawContent, resetResponseButtons]

theorem processReview_calls_ne_nil (delay : Int) (isTypeIn hasNext : Bool)
    (r : ReviewResponse) (t : Int) (s : CardState)
    (h : debounceRejected delay s.lastPressed t = false) :
    (processReview delay isTypeIn hasNext r t s).2 ≠ [] := by
  simp [processReview, h]

/-- C6: every state-changing action (graded response via `_processReview`,
reveal via `_showAnswer`, check via `_checkTypeInAnswer`) arriving strictly
within the configured interval after the previous accepted action's
timestamp is rejected as a no-op: the state is unchanged, no collaborator
is called, and the timestamp is not updated.  Arriving more than the
interval after, the action is accepted and the timestamp is set to the new
action's time.  Two accepted-type actions separated by more than the delay
both apply. -/
theorem debounce_policy (delay t t2 : Int) (isTypeIn hasNext caseSensitive isCram : Bool)
    (r r2 : ReviewResponse) (input back : List Char) (s : CardState) :
    (s.lastPressed ≠ 0 → t - s.lastPressed < delay →
      processReview delay isTypeIn hasNext r t s = (s, []) ∧
      showAnswer delay isCram t s = s ∧
      checkTypeInAnswer delay caseSensitive isCram input back t s = s) ∧
    (t - s.lastPressed > delay →
      (processReview delay isTypeIn hasNext r t s).1.lastPressed = t ∧
      (processReview delay isTypeIn hasNext r t s).2 ≠ [] ∧
      (showAnswer delay isCram t s).lastPressed = t ∧
      (showAnswer delay isCram t s).mode = FlashcardMode.Back ∧
      (checkTypeInAnswer delay caseSensitive isCram input back t s).lastPressed = t) ∧
    (t - s.lastPressed > delay → t2 - t > delay →
      (processReview delay isTypeIn hasNext r t s).2 ≠ [] ∧
      (processReview delay isTypeIn hasNext r2 t2
          (processReview delay isTypeIn hasNext r t s).1).2 ≠ []) := by
  refine ⟨fun h1 h2 => ?_, fun h => ?_, fun h h2 => ?_⟩
  · have hrej : debounceRejected delay s.lastPressed t = true := by
      simp [debounceRejected, h1, h2]
    refine ⟨?_, ?_, ?_⟩ <;>
      simp [processReview, showAnswer, checkTypeInAnswer, hrej]
  · have hlt : ¬ (t - s.lastPressed < delay) := by omega
    have hacc : debounceRejected delay s.lastPressed t = false := by
      simp [debounceRejected, hlt]
    cases hasNext <;>
      simp [processReview, showAnswer, checkTypeInAnswer, hacc, showNextCard,
        drawContent_lastPressed]
  · have hlt : ¬ (t - s.lastPressed < delay) := by omega
    have hacc : debounceRejected delay s.lastPressed t = false := by
      simp [debounceRejected, hlt]
    have hl : (processReview delay isTypeIn hasNext r t s).1.lastPressed = t := by
      cases hasNext <;>
        simp [processReview, hacc, showNextCard, drawContent_lastPressed]
    have hlt2 : ¬ (t2 - (processReview delay isTypeIn hasNext r t s).1.lastPressed < delay) := by
      rw [hl]; omega
    have hacc2 : debounceRejected delay
        (processReview delay isTypeIn hasNext r t s).1.lastPressed t2 = false := by
      simp [debounceRejected, hlt2]
    exact ⟨processReview_calls_ne_nil _ _ _ _ _ _ hacc,
      processReview_calls_ne_nil _ _ _ _ _ _ hacc2⟩

/-- Witness for C6: with a 300ms delay and a previous accepted press at
time 1000, an action at 1100 is rejected unchanged, actions at 1400 and
1800 are both accepted. -/
theorem debounce_policy_witness :
    (processReview 300 true true ReviewResponse.Good 1100
        ⟨FlashcardMode.Back, 1000, [], false, false, false, true, false, false, false, none, []⟩ =
      (⟨FlashcardMode.Back, 1000, [], false, false, false, true, false, false, false, none, []⟩, []) ∧
      showAnswer 300 false 1100
        ⟨FlashcardMode.Back, 1000, [], false, false, false, true, false, false, false, none, []⟩ =
        ⟨FlashcardMode.Back, 1000, [], false, false, false, true, false, false, false, none, []⟩ ∧
      checkTypeInAnswer 300 false false [] [] 1100
        ⟨FlashcardMode.Back, 1000, [], false, false, false, true, false, false, false, none, []⟩ =
        ⟨FlashcardMode.Back, 1000, [], false, false, false, true, false, false, false, none, []⟩) ∧
    (processReview 300 true true ReviewResponse.Good 1400
        ⟨FlashcardMode.Back, 1000, [], false, false, false, true, false, false, false, none, []⟩).2 ≠ [] ∧
    (processReview 300 true true ReviewResponse.Hard 1800
        (processReview 300 true true ReviewResponse.Good 1400
          ⟨FlashcardMode.Back, 1000, [], false, false, false, true, false, false, false, none, []⟩).1).2 ≠ [] :=
  ⟨(debounce_policy 300 1100 0 true true false false ReviewResponse.Good ReviewResponse.Good
      [] [] _).1 (by decide) (by decide),
   ((debounce_policy 300 1400 1800 true true false false ReviewResponse.Good ReviewResponse.Hard
      [] [] _).2.2 (by decide) (by decide)).1,
   ((debounce_policy 300 1400 1800 true true false false ReviewResponse.Good ReviewResponse.Hard
      [] [] _).2.2 (by decide) (by decide)).2⟩

/-- C7, counterexample: with the controller in Back mode (and the handler
active, not typing in the input), the skip key is not dropped: it invokes
the sequencer's `skipCurrentCard` and changes the state (the mode leaves
Back for the next card's Front). -/
theorem keydown_skip_in_back_counterexample :
    (keydownHandler 300 ⟨false, true, false, false, false, true⟩ KeyCode.KeyS 1000
        ⟨FlashcardMode.Back, 500, [], false, false, false, true, false, false, false, none, []⟩).2.1 =
      [SeqCall.skipCurrentCard] ∧
    ¬ (keydownHandler 300 ⟨false, true, false, false, false, true⟩ KeyCode.KeyS 1000
        ⟨FlashcardMode.Back, 500, [], false, false, false, true, false, false, false, none, []⟩).1.mode =
      FlashcardMode.Back :=
  ⟨by decide, by decide⟩

/-- C7 (amended): the skip key is accepted whenever the keydown handler is
active (no textarea focused, plugin view focused, not typing in the
type-in input) and the mode is not Closed — in Back mode just as in Front:
there is no mode guard, and it always invokes the sequencer's
`skipCurrentCard` before advancing. -/
theorem keydown_skip_any_mode (delay t : Int) (ctx : KeyContext) (s : CardState)
    (h1 : ctx.textareaActive = false) (h2 : ctx.srInFocus = true)
    (h3 : ctx.isTypingInInput = false) (h4 : ¬ s.mode = FlashcardMode.Closed) :
    keydownHandler delay ctx KeyCode.KeyS t s =
      ((skipCurrentCard ctx.isTypeIn ctx.hasNext s).1,
        (skipCurrentCard ctx.isTypeIn ctx.hasNext s).2, true) := by
  have hm : (s.mode == FlashcardMode.Closed) = false := by
    cases hmode : s.mode <;> simp_all
  simp [keydownHandler, h1, h2, h3, hm]

/-- Witness for C7's amended statement, in Back mode. -/
theorem keydown_skip_any_mode_witness :
    keydownHandler 300 ⟨false, true, false, true, false, false⟩ KeyCode.KeyS 1000
        ⟨FlashcardMode.Back, 500, [], false, true, true, true, false, false, false, some false, []⟩ =
      ((skipCurrentCard true false
          ⟨FlashcardMode.Back, 500, [], false, true, true, true, false, false, false, some false, []⟩).1,
        (skipCurrentCard true false
          ⟨FlashcardMode.Back, 500, [], false, true, true, true, false, false, false, some false, []⟩).2,
        true) :=
  keydown_skip_any_mode 300 1000 ⟨false, true, false, true, false, false⟩ _
    (by decide) (by decide) (by decide) (by decide)

/-- C8, counterexample: in Front mode the reset key is a silent no-op —
no state change, no sequencer call, event not consumed — so the reset
grading action is not available in any state once the card is shown. -/
theorem keydown_reset_front_counterexample :
    keydownHandler 300 ⟨false, true, false, false, false, true⟩ KeyCode.Digit0 1000
        ⟨FlashcardMode.Front, 0, [], true, false, false, false, true, true, true, none, []⟩ =
      (⟨FlashcardMode.Front, 0, [], true, false, false, false, true, true, true, none, []⟩,
        [], false) := by
  decide

/-- C8 (amended): the reset key submits a Reset graded response only while
the mode is Back; in Front mode the key is dropped with no state change
and no sequencer call.  (The reset button is likewise unavailable on the
front: every card draw disables it, and it is re-enabled only on entering
Back.) -/
theorem keydown_reset_only_back (delay t : Int) (ctx : KeyContext) (s : CardState)
    (h1 : ctx.textareaActive = false) (h2 : ctx.srInFocus = true) :
    (s.mode = FlashcardMode.Front →
      keydownHandler delay ctx KeyCode.Digit0 t s = (s, [], false)) ∧
    (s.mode = FlashcardMode.Back →
      keydownHandler delay ctx KeyCode.Digit0 t s =
        ((processReview delay ctx.isTypeIn ctx.hasNext ReviewResponse.Reset t s).1,
          (processReview delay ctx.isTypeIn ctx.hasNext ReviewResponse.Reset t s).2,
          true)) ∧
    (drawContent ctx.isTypeIn s).resetDisabled = true := by
  refine ⟨fun hmode => ?_, fun hmode => ?_, ?_⟩
  · simp [keydownHandler, h1, h2, hmode]
  · simp [keydownHandler, h1, h2, hmode]
  · cases hti : ctx.isTypeIn <;> simp [drawContent, resetResponseButtons]

/-- Witness for C8's amended statement. -/
theorem keydown_reset_only_back_witness :
    (keydownHandler 300 ⟨false, true, false, false, false, true⟩ KeyCode.Digit0 1000
        ⟨FlashcardMode.Front, 0, [], true, false, false, false, true, true, true, none, []⟩ =
      (⟨FlashcardMode.Front, 0, [], true, false, false, false, true, true, true, none, []⟩,
        [], false)) ∧
    (keydownHandler 300 ⟨false, true, false, false, false, true⟩ KeyCode.Digit0 1000
        ⟨FlashcardMode.Back, 0, [], false, false, false, true, false, false, false, none, []⟩ =
      ((processReview 300 false true ReviewResponse.Reset 1000
          ⟨FlashcardMode.Back, 0, [], false, false, false, true, false, false, false, none, []⟩).1,
        (processReview 300 false true ReviewResponse.Reset 1000
          ⟨FlashcardMode.Back, 0, [], false, false, false, true, false, false, false, none, []⟩).2,
        true)) :=
  ⟨(keydown_reset_only_back 300 1000 ⟨false, true, false, false, false, true⟩ _
      (by decide) (by decide)).1 (by decide),
   (keydown_reset_only_back 300 1000 ⟨false, true, false, false, false, true⟩ _
      (by decide) (by decide)).2.1 (by decide)⟩

/-- C9: an accepted (not debounce-rejected) check-typed-answer action
always transitions the mode to Back and makes the grading buttons
available, regardless of the correctness verdict; the verdict (and the
diff) is exposed for display only and does not branch the transition. -/
theorem checkTypeIn_always_back (delay t : Int) (caseSensitive isCram : Bool)
    (input back : List Char) (s : CardState)
    (h : debounceRejected delay s.lastPressed t = false) :
    (checkTypeInAnswer delay caseSensitive isCram input back t s).mode = FlashcardMode.Back ∧
    (checkTypeInAnswer delay caseSensitive isCram input back t s).hardHidden = false ∧
    (checkTypeInAnswer delay caseSensitive isCram input back t s).easyHidden = false ∧
    (isCram = false →
      (checkTypeInAnswer delay caseSensitive isCram input back t s).goodHidden = false) ∧
    (checkTypeInAnswer delay caseSensitive isCram input back t s).indicatorCorrect =
      some (isAnswerCorrect input (trimJS back) caseSensitive) ∧
    (checkTypeInAnswer delay caseSensitive isCram input back t s).displayedDiff =
      computeDiff input (trimJS back) caseSensitive := by
  refine ⟨?_, ?_, ?_, fun hc => ?_, ?_, ?_⟩ <;>
    simp [checkTypeInAnswer, h] <;> simp [hc]

/-- Witness for C9 at an incorrect typed answer: the mode still becomes
Back and the grading buttons show. -/
theorem checkTypeIn_always_back_witness :
    debounceRejected 300 0 1000 = false ∧
    ((checkTypeInAnswer 300 false false "dog".toList "cat".toList 1000
        ⟨FlashcardMode.Front, 0, [], true, false, false, true, true, true, true, none, []⟩).mode =
      FlashcardMode.Back ∧
     (checkTypeInAnswer 300 false false "dog".toList "cat".toList 1000
        ⟨FlashcardMode.Front, 0, [], true, false, false, true, true, true, true, none, []⟩).hardHidden =
      false ∧
     (checkTypeInAnswer 300 false false "dog".toList "cat".toList 1000
        ⟨FlashcardMode.Front, 0, [], true, false, false, true, true, true, true, none, []⟩).easyHidden =
      false ∧
     (false = false →
       (checkTypeInAnswer 300 false false "dog".toList "cat".toList 1000
          ⟨FlashcardMode.Front, 0, [], true, false, false, true, true, true, true, none, []⟩).goodHidden =
        false) ∧
     (checkTypeInAnswer 300 false false "dog".toList "cat".toList 1000
        ⟨FlashcardMode.Front, 0, [], true, false, false, true, true, true, true, none, []⟩).indicatorCorrect =
      some (isAnswerCorrect "dog".toList (trimJS "cat".toList) false) ∧
     (checkTypeInAnswer 300 false false "dog".toList "cat".toList 1000
        ⟨FlashcardMode.Front, 0, [], true, false, false, true, true, true, true, none, []⟩).displayedDiff =
      computeDiff "dog".toList (trimJS "cat".toList) false) :=
  ⟨by decide,
    checkTypeIn_always_back 300 1000 false false "dog".toList "cat".toList _ (by decide)⟩

end SRTypeIn
